import Mathlib

/-! Formal model of the lithium-battery SOC pipeline (source file
`src/lithium_battery.ipynb`, a single Python script).

The pipeline ingests battery discharge-cycle records, resamples every
channel to a fixed length, derives a SOC-from-time curve, runs a
coulomb-counting baseline estimator, trains sequence models under a plain
MSE or a physics-informed loss with best-checkpoint retention, and
evaluates RMSE / MAE / R-squared.

Python floats are modelled by `ℚ` (every concrete value appearing in the
source computations here is exactly representable; where IEEE behaviour
matters — NaN/inf losses — an explicit `LossVal.nonfinite` marker is used
with the IEEE rule that comparisons against a non-finite/NaN value used by
the code are false).  numpy arrays are modelled by `List ℚ`.  Fields of
the records that the analysed properties never touch (battery/cycle ids,
timestamps, static metadata columns) are omitted from the structures.
-/

namespace LithiumBattery

attribute [local semireducible] Rat.add Rat.mul Rat.inv Rat.sub

/-- Source constant `MAX_CYCLES = 1000` (module-level configuration). -/
def MAX_CYCLES : ℕ := 1000

/-- Source constant `NUM_POINTS = 128` (module-level configuration). -/
def NUM_POINTS : ℕ := 128

/-- Model of `np.interp(t, original_indices, x)` where
`original_indices = np.linspace(0, len(x)-1, num=len(x)) = [0, 1, ..., n-1]`:
clamp below 0 to `x[0]`, clamp at/above `n-1` to `x[n-1]`, otherwise linear
interpolation between the two neighbouring integer sample positions. -/
def interpAt (x : List ℚ) (t : ℚ) : ℚ :=
  if t ≤ 0 then x.getD 0 0
  else if (x.length : ℚ) - 1 ≤ t then x.getD (x.length - 1) 0
  else
    let i : ℕ := (Int.floor t).toNat
    x.getD i 0 + (t - (i : ℚ)) * (x.getD (i + 1) 0 - x.getD i 0)

/-- The `k`-th entry of `np.linspace(0, n-1, num=L)`: `k * (n-1) / (L-1)`,
and `linspace` returns just the start point `0` when `num = 1`. -/
def targetIdx (n L k : ℕ) : ℚ :=
  if L ≤ 1 then 0 else ((k : ℚ) * ((n : ℚ) - 1)) / ((L : ℚ) - 1)

/-- Source `anchor_resample(x, num_points)`:
`len(x) == 0` → `np.zeros(num_points)`;
`len(x) == 1` → `np.full(num_points, x[0])`;
otherwise `np.interp(np.linspace(0, len(x)-1, num=num_points), [0..n-1], x)`. -/
def anchor_resample (x : List ℚ) (num_points : ℕ) : List ℚ :=
  if x.length = 0 then List.replicate num_points 0
  else if x.length = 1 then List.replicate num_points (x.getD 0 0)
  else (List.range num_points).map (fun k => interpAt x (targetIdx x.length num_points k))

/-- A raw cycle entry as consumed by `process_battery`: the `type` tag
(`c.get("type", "")`, absent modelled as `none`) and the four raw channel
arrays resolved from the nested `data` block (missing channel → empty). -/
structure RawCycle where
  type? : Option String
  voltage : List ℚ
  current : List ℚ
  temperature : List ℚ
  time : List ℚ
deriving DecidableEq

/-- The per-cycle resampled row written by `process_battery`
(`voltage_j / current_j / temperature_j / time_j / soc_j` columns; the
id/metadata columns are not modelled). -/
structure NormalizedCycle where
  voltage_r : List ℚ
  current_r : List ℚ
  temperature_r : List ℚ
  time_r : List ℚ
  soc_r : List ℚ
deriving DecidableEq

/-- Source line `soc_r = 1.0 - time_r / (time_r[-1] if len(time_r) > 0 else 1.0)`:
elementwise, with `time_r[-1]` the last element. -/
def soc_from_time (time_r : List ℚ) : List ℚ :=
  let d : ℚ := if 0 < time_r.length then time_r.getD (time_r.length - 1) 0 else 1
  time_r.map (fun t => 1 - t / d)

/-- Row construction of `process_battery` for one accepted cycle: resample
the four channels to `num_points` and derive the SOC-from-time curve.
This is the row produced when every `len(x)` inside `anchor_resample`
evaluates, i.e. when no channel has length exactly 1 (a length-1 channel
is a 0-d array after `np.squeeze` and `len()` raises — the error path is
modelled by `process_batteryE`). -/
def makeRow (c : RawCycle) (num_points : ℕ) : NormalizedCycle :=
  let time_r := anchor_resample c.time num_points
  { voltage_r := anchor_resample c.voltage num_points
    current_r := anchor_resample c.current num_points
    temperature_r := anchor_resample c.temperature num_points
    time_r := time_r
    soc_r := soc_from_time time_r }

/-- Python's `str.lower()` on the (ASCII) type tags: lowercase every
character.  (Extensionally this is Lean's `String.toLower`, re-stated as a
structural map over the character list.) -/
def strLower (s : String) : String := ⟨s.data.map Char.toLower⟩

/-- The retention test of `process_battery`: the loop `continue`s unless
`str(c.get("type","")).lower() == "discharge"`, and afterwards `continue`s
when `len(voltage) < 5 or len(current) < 5`.  This is the VALUE of that
test when both `len` calls evaluate; on a channel of length exactly 1 the
source's `np.squeeze` yields a 0-dimensional array on which `len()` raises
an uncaught TypeError instead — that error path is modelled by
`npSqueezeLen?` and `process_batteryE` below. -/
def acceptCycle (c : RawCycle) : Bool :=
  (strLower (c.type?.getD ("")) == "discharge")
    && decide (5 ≤ c.voltage.length) && decide (5 ≤ c.current.length)

/-- `len(np.squeeze(a))` for a 1-d array `a`: a length-1 array squeezes to
a 0-dimensional array whose `len()` raises TypeError (`none`); any other
length passes through unchanged (`some`). -/
def npSqueezeLen? (a : List ℚ) : Option ℕ :=
  if a.length = 1 then none else some a.length

/-- The cycle loop of `process_battery`: accepted cycles are appended to
`results`, and the loop `break`s once `len(results) >= MAX_CYCLES`. -/
def processBatteryGo (num_points : ℕ) : List RawCycle → List NormalizedCycle → List NormalizedCycle
  | [], results => results
  | c :: cs, results =>
    if acceptCycle c then
      let results2 := results ++ [makeRow c num_points]
      if MAX_CYCLES ≤ results2.length then results2
      else processBatteryGo num_points cs results2
    else processBatteryGo num_points cs results

/-- Source `process_battery` restricted to its cycle loop (the `.mat`
loading and error paths that return `[]` are plain I/O and not modelled).
This total version gives the rows of the crash-free executions; the
crash-aware refinement is `process_batteryE`. -/
def process_battery (cycles : List RawCycle) (num_points : ℕ) : List NormalizedCycle :=
  processBatteryGo num_points cycles []

/-- Crash-aware model of the cycle loop of `process_battery`.  `none`
models the uncaught TypeError raised by `len()` on the 0-d array that
`np.squeeze` produces from a length-1 channel: at `len(voltage)` first
(Python's `or` short-circuits, so `len(current)` is only evaluated when
`len(voltage) >= 5`), then — for an accepted cycle — at `len(x)` inside
`anchor_resample` on the temperature and then the time channel (the
voltage/current channels are 1-d of length at least 5 there).  The
exception propagates out of `process_battery`, so nothing is returned. -/
def processBatteryGoE (num_points : ℕ) : List RawCycle → List NormalizedCycle → Option (List NormalizedCycle)
  | [], results => some results
  | c :: cs, results =>
    if strLower (c.type?.getD ("")) == "discharge" then
      match npSqueezeLen? c.voltage with
      | none => none
      | some vlen =>
        if vlen < 5 then processBatteryGoE num_points cs results
        else
          match npSqueezeLen? c.current with
          | none => none
          | some clen =>
            if clen < 5 then processBatteryGoE num_points cs results
            else if c.temperature.length = 1 then none
            else if c.time.length = 1 then none
            else
              let results2 := results ++ [makeRow c num_points]
              if MAX_CYCLES ≤ results2.length then some results2
              else processBatteryGoE num_points cs results2
    else processBatteryGoE num_points cs results

/-- `process_battery` with the `np.squeeze`/`len()` TypeError path made
explicit: `some rows` when the scan completes, `none` when it crashes. -/
def process_batteryE (cycles : List RawCycle) (num_points : ℕ) : Option (List NormalizedCycle) :=
  processBatteryGoE num_points cycles []

/-- One battery as seen by `preprocess_and_save_csv`: its metadata
`usable` flag (`battery_meta.get("usable", True)`) and the cycle
collection loaded from its `.mat` file. -/
structure Battery where
  usable : Bool
  cycles : List RawCycle
deriving DecidableEq

/-- The battery loop of `preprocess_and_save_csv`: skip unusable
batteries, extend `all_data` with the whole battery's rows, then `break`
once `len(all_data) >= max_cycles`. -/
def preprocessGo (num_points max_cycles : ℕ) : List Battery → List NormalizedCycle → List NormalizedCycle
  | [], all_data => all_data
  | b :: bs, all_data =>
    if b.usable then
      let all_data2 := all_data ++ process_battery b.cycles num_points
      if max_cycles ≤ all_data2.length then all_data2
      else preprocessGo num_points max_cycles bs all_data2
    else preprocessGo num_points max_cycles bs all_data

/-- Source `preprocess_and_save_csv` (the YAML read and CSV write are I/O;
the rows accumulated in `all_data` are the model's output). -/
def preprocess_and_save_csv (batteries : List Battery) (num_points max_cycles : ℕ) : List NormalizedCycle :=
  preprocessGo num_points max_cycles batteries []

/-- The loop body of `simple_ecm`: per sample subtract
`current[i] * delta_t / (capacity * 3600)` from the running SOC, clip to
`[0, 1]` with `np.clip`, and append. -/
def simple_ecm_go (delta_t capacity : ℚ) : ℚ → List ℚ → List ℚ
  | _, [] => []
  | soc, c :: rest =>
    let soc2 := min (max (soc - (c * delta_t) / (capacity * 3600)) 0) 1
    soc2 :: simple_ecm_go delta_t capacity soc2 rest

/-- Source `simple_ecm(current, delta_t, capacity)`: SOC starts at `1.0`
(defaults in the source are `delta_t=1.0`, `capacity=2.0`). -/
def simple_ecm (current : List ℚ) (delta_t capacity : ℚ) : List ℚ :=
  simple_ecm_go delta_t capacity 1 current

/-- `tf.nn.relu` on a scalar. -/
def relu (z : ℚ) : ℚ := max z 0

/-- Source `mse_loss(y_true, y_pred) = tf.reduce_mean(tf.square(y_true - y_pred))`;
the tensors are modelled flattened to equal-length lists, the mean as
sum divided by element count. -/
def mse_loss (y_true y_pred : List ℚ) : ℚ :=
  (((y_true.zip y_pred).map (fun p => (p.1 - p.2) ^ 2)).sum) / (((y_true.zip y_pred).length : ℚ))

/-- Source `physics_informed_loss(y_true, y_pred, ecm_soc, alpha, beta)`:
`mean((y_pred - y_true)^2) + alpha * mean((y_pred - ecm_soc)^2)
 + beta * mean(relu(y_pred - 1) + relu(0 - y_pred))`. -/
def physics_informed_loss (y_true y_pred ecm_soc : List ℚ) (alpha beta : ℚ) : ℚ :=
  let mse := (((y_pred.zip y_true).map (fun p => (p.1 - p.2) ^ 2)).sum) / (((y_pred.zip y_true).length : ℚ))
  let coulomb := (((y_pred.zip ecm_soc).map (fun p => (p.1 - p.2) ^ 2)).sum) / (((y_pred.zip ecm_soc).length : ℚ))
  let boundary := ((y_pred.map (fun p => relu (p - 1) + relu (0 - p))).sum) / ((y_pred.length : ℚ))
  mse + alpha * coulomb + beta * boundary

/-- A per-epoch mean loss value as produced by `np.mean` over batch losses:
either an ordinary finite float (modelled exactly by `ℚ`) or a non-finite
value (NaN or infinity). -/
inductive LossVal
  | fin (q : ℚ)
  | nonfinite
deriving DecidableEq, Repr

/-- The comparison `avg_val_loss < best_val_loss` for a finite
`avg_val_loss`; `best_val_loss` starts as `np.inf`, modelled by `none`. -/
def valLtQ (q : ℚ) : Option ℚ → Bool
  | none => true
  | some b => decide (q < b)

/-- One epoch of the checkpoint logic of `train_model`: state is
`(best_val_loss, saved snapshot)`; on improvement the current parameters
are persisted via `model.save_weights`.  A non-finite `avg_val_loss`
never updates the state because every IEEE comparison
`NaN < x` / `inf < x` used by the code is false. -/
def trainStep {α : Type} (st : Option ℚ × Option α) (e : LossVal × α) : Option ℚ × Option α :=
  match e.1 with
  | LossVal.fin q => if valLtQ q st.1 then (some q, some e.2) else st
  | LossVal.nonfinite => st

/-- Source `train_model` abstracted over the per-epoch outcomes: each
epoch yields a mean validation loss together with the model parameters at
the end of that epoch (the gradient steps themselves are the opaque model
capability).  The function returns the validation-loss history
(`val_loss_history`, appended every epoch unconditionally) and the
snapshot restored at the end by `model.load_weights` (`none` when no
`save_weights` ever happened). -/
def train_model {α : Type} (epochs : List (LossVal × α)) : List LossVal × Option α :=
  (epochs.map (fun e => e.1), (epochs.foldl trainStep (none, none)).2)

/-- A training-run configuration as it reaches the checkpoint code of
`train_model`: the `loss_type` string, the composition flag `ecm_in`
(residual-over-baseline vs absolute), and the architecture's
`model.name`. -/
structure RunConfig where
  loss_type : String
  ecm_in : Bool
  model_name : String
deriving DecidableEq

/-- The checkpoint storage key used by `model.save_weights` /
`model.load_weights`: the literal f-string
`f'best_{loss_type}_{model.name}.weights.h5'`. -/
def checkpointKey (cfg : RunConfig) : String :=
  "best_" ++ cfg.loss_type ++ "_" ++ cfg.model_name ++ ".weights.h5"

/-- `np.mean` over a flat array. -/
def npMean (l : List ℚ) : ℚ := l.sum / (l.length : ℚ)

/-- The R-squared denominator of `evaluate_model`:
`np.sum((trues - np.mean(trues)) ** 2)`. -/
def r2_denom (trues : List ℚ) : ℚ := (trues.map (fun t => (t - npMean trues) ^ 2)).sum

/-- The R-squared computation of `evaluate_model`:
`1 - np.sum((preds - trues) ** 2) / np.sum((trues - np.mean(trues)) ** 2)`,
an unguarded division. -/
def r2_score (preds trues : List ℚ) : ℚ :=
  1 - ((preds.zip trues).map (fun p => (p.1 - p.2) ^ 2)).sum / r2_denom trues

/-- A well-formed discharge cycle used as concrete input in several
closed statements below. -/
def sampleCycle : RawCycle :=
  { type? := some ("Discharge")
    voltage := [1, 1, 1, 1, 1]
    current := [1, 1, 1, 1, 1]
    temperature := []
    time := [] }

/-- A discharge-tagged cycle whose voltage channel has length exactly 1:
`np.squeeze` collapses it to a 0-d array and `len(voltage)` raises. -/
def singletonVoltageCycle : RawCycle :=
  { type? := some ("Discharge")
    voltage := [1]
    current := [1, 1, 1, 1, 1]
    temperature := []
    time := [] }

/-- A charge-tagged cycle (skipped by the type-tag test). -/
def chargeCycle : RawCycle :=
  { type? := some ("charge")
    voltage := [1, 1, 1, 1, 1]
    current := [1, 1, 1, 1, 1]
    temperature := []
    time := [] }

/-- An impedance-tagged cycle (skipped by the type-tag test). -/
def impedanceCycle : RawCycle :=
  { type? := some ("impedance")
    voltage := [1, 1, 1, 1, 1]
    current := [1, 1, 1, 1, 1]
    temperature := []
    time := [] }

/-- A discharge-tagged cycle whose voltage channel is too short (length 3,
not 1, so `len` evaluates and the entry is skipped silently). -/
def shortDischargeCycle : RawCycle :=
  { type? := some ("Discharge")
    voltage := [1, 1, 1]
    current := []
    temperature := []
    time := [] }

/-- A discharge cycle whose time channel is not monotonically increasing:
its resampled time values exceed the final time value. -/
def decreasingTimeCycle : RawCycle :=
  { type? := some ("Discharge")
    voltage := [1, 1, 1, 1, 1]
    current := [1, 1, 1, 1, 1]
    temperature := []
    time := [0, 4, 3, 2, 1] }

/-! Helper lemmas about the resampler. -/

lemma getD_map_range (f : ℕ → ℚ) {L k : ℕ} (h : k < L) :
    ((List.range L).map f).getD k 0 = f k := by
  rw [List.getD_eq_getElem _ _ (by simpa using h)]
  simp

lemma getD_replicate {a : ℚ} {L k : ℕ} (h : k < L) :
    (List.replicate L a).getD k 0 = a := by
  rw [List.getD_eq_getElem _ _ (by simpa using h)]
  simp

lemma interpAt_nonpos (x : List ℚ) {t : ℚ} (h : t ≤ 0) : interpAt x t = x.getD 0 0 := by
  simp [interpAt, h]

lemma targetIdx_zero (n L : ℕ) : targetIdx n L 0 = 0 := by
  simp [targetIdx]

lemma targetIdx_last {n L : ℕ} (hL : 2 ≤ L) : targetIdx n L (L - 1) = (n : ℚ) - 1 := by
  have h1 : ¬ L ≤ 1 := by omega
  have h2 : ((L : ℚ) - 1) ≠ 0 := by
    rw [sub_ne_zero]
    norm_cast
    omega
  have h3 : ((L - 1 : ℕ) : ℚ) = (L : ℚ) - 1 := by
    rw [Nat.cast_sub (by omega : 1 ≤ L), Nat.cast_one]
  rw [targetIdx, if_neg h1, h3, mul_comm, mul_div_assoc, div_self h2, mul_one]

lemma interpAt_last {x : List ℚ} (h : 2 ≤ x.length) :
    interpAt x ((x.length : ℚ) - 1) = x.getD (x.length - 1) 0 := by
  have h0 : ¬ ((x.length : ℚ) - 1 ≤ 0) := by
    rw [not_le, sub_pos]
    exact_mod_cast (by omega : 1 < x.length)
  rw [interpAt, if_neg h0, if_pos le_rfl]

lemma length_anchor_resample (x : List ℚ) (L : ℕ) : (anchor_resample x L).length = L := by
  unfold anchor_resample
  split_ifs <;> simp

/-- Claim C7: `anchor_resample` always produces a sequence of the target
length; an empty input yields all zeros; a singleton input yields a constant
sequence of that value; a nonempty input keeps its first sample as the
output's first element; and — amended — the output's last element equals the
input's last element when the target length is at least 2 (at target length
1 the single output element is the input's first sample instead). -/
theorem c7_resample_endpoints (x : List ℚ) (L : ℕ) (hL : 1 ≤ L) :
    (anchor_resample x L).length = L
    ∧ (x.length = 0 → anchor_resample x L = List.replicate L 0)
    ∧ (x.length = 1 → anchor_resample x L = List.replicate L (x.getD 0 0))
    ∧ (1 ≤ x.length → (anchor_resample x L).getD 0 0 = x.getD 0 0)
    ∧ (1 ≤ x.length → 2 ≤ L →
        (anchor_resample x L).getD (L - 1) 0 = x.getD (x.length - 1) 0) := by
  refine ⟨length_anchor_resample x L, ?_, ?_, ?_, ?_⟩
  · intro h
    simp [anchor_resample, h]
  · intro h
    simp [anchor_resample, h]
  · intro h
    rcases Nat.lt_or_ge x.length 2 with h2 | h2
    · have h1 : x.length = 1 := by omega
      unfold anchor_resample
      rw [if_neg (by omega), if_pos h1, getD_replicate (by omega : 0 < L)]
    · unfold anchor_resample
      rw [if_neg (by omega), if_neg (by omega), getD_map_range _ (by omega : 0 < L),
        targetIdx_zero, interpAt_nonpos _ le_rfl]
  · intro h hL2
    rcases Nat.lt_or_ge x.length 2 with h2 | h2
    · have h1 : x.length = 1 := by omega
      unfold anchor_resample
      rw [if_neg (by omega), if_pos h1, getD_replicate (by omega : L - 1 < L), h1]
    · unfold anchor_resample
      rw [if_neg (by omega), if_neg (by omega), getD_map_range _ (by omega : L - 1 < L),
        targetIdx_last hL2, interpAt_last h2]

/-- Claim C7 counterexample: with input `[0, 1]` and target length `L = 1`
(allowed by the claim, which quantifies over every `L ≥ 1`) the resampled
output is `[0]`, whose last element `0` differs from the input's last
element `1`; the claimed last-element anchor property fails at `L = 1`. -/
theorem c7_last_element_counterexample :
    anchor_resample [ (0 : ℚ), 1 ] 1 = [ 0 ]
    ∧ ([ (0 : ℚ), 1 ]).getD (2 - 1) 0 = 1
    ∧ ((0 : ℚ) ≠ 1) := by decide

/-- Claim C7 witness: input `[1, 2, 3]` at target length 4 — the output has
length 4, first element 1 and last element 3. -/
theorem c7_resample_endpoints_witness :
    1 ≤ 4
    ∧ ((anchor_resample [ (1 : ℚ), 2, 3 ] 4).length = 4
      ∧ (([ (1 : ℚ), 2, 3 ]).length = 0 → anchor_resample [ (1 : ℚ), 2, 3 ] 4 = List.replicate 4 0)
      ∧ (([ (1 : ℚ), 2, 3 ]).length = 1 →
          anchor_resample [ (1 : ℚ), 2, 3 ] 4 = List.replicate 4 (([ (1 : ℚ), 2, 3 ]).getD 0 0))
      ∧ (1 ≤ ([ (1 : ℚ), 2, 3 ]).length →
          (anchor_resample [ (1 : ℚ), 2, 3 ] 4).getD 0 0 = ([ (1 : ℚ), 2, 3 ]).getD 0 0)
      ∧ (1 ≤ ([ (1 : ℚ), 2, 3 ]).length → 2 ≤ 4 →
          (anchor_resample [ (1 : ℚ), 2, 3 ] 4).getD (4 - 1) 0
            = ([ (1 : ℚ), 2, 3 ]).getD (([ (1 : ℚ), 2, 3 ]).length - 1) 0)) :=
  ⟨by decide, c7_resample_endpoints [ (1 : ℚ), 2, 3 ] 4 (by decide)⟩

/-! Helper lemmas about the coulomb-counting baseline. -/

lemma simple_ecm_go_length (dt cap : ℚ) (l : List ℚ) : ∀ (s : ℚ),
    (simple_ecm_go dt cap s l).length = l.length := by
  induction l with
  | nil => intro s; rfl
  | cons c rest ih =>
    intro s
    simp [simple_ecm_go, ih]

lemma simple_ecm_go_mem (dt cap : ℚ) (l : List ℚ) : ∀ (s : ℚ),
    ∀ y ∈ simple_ecm_go dt cap s l, 0 ≤ y ∧ y ≤ 1 := by
  induction l with
  | nil =>
    intro s y hy
    simp [simple_ecm_go] at hy
  | cons c rest ih =>
    intro s y hy
    simp only [simple_ecm_go, List.mem_cons] at hy
    rcases hy with rfl | hy
    · exact ⟨le_min (le_max_right _ _) (by norm_num), min_le_right _ _⟩
    · exact ih _ y hy

/-- Claim C8: for every current trace (negative and oversized values
included), positive time step and positive capacity, the baseline
estimator's output has the input's length and every element lies in
`[0, 1]`. -/
theorem c8_ecm_soc_range (current : List ℚ) (delta_t capacity : ℚ)
    (hdt : 0 < delta_t) (hcap : 0 < capacity) :
    (simple_ecm current delta_t capacity).length = current.length
    ∧ ∀ y ∈ simple_ecm current delta_t capacity, 0 ≤ y ∧ y ≤ 1 :=
  ⟨simple_ecm_go_length delta_t capacity current 1, simple_ecm_go_mem delta_t capacity current 1⟩

/-- Claim C8 witness: a trace with an oversized discharge current, an
oversized charge current and a zero sample, at `delta_t = 1`,
`capacity = 2`. -/
theorem c8_ecm_soc_range_witness :
    (0 : ℚ) < 1 ∧ (0 : ℚ) < 2
    ∧ ((simple_ecm [ 7200, -7200, 0 ] 1 2).length = ([ (7200 : ℚ), -7200, 0 ]).length
      ∧ ∀ y ∈ simple_ecm [ 7200, -7200, 0 ] 1 2, 0 ≤ y ∧ y ≤ 1) :=
  ⟨by norm_num, by norm_num, c8_ecm_soc_range [ 7200, -7200, 0 ] 1 2 (by norm_num) (by norm_num)⟩

/-! Helper lemma for the SOC-from-time curve. -/

lemma soc_from_time_mem (r : List ℚ)
    (h0 : ∀ t ∈ r, 0 ≤ t)
    (h1 : ∀ t ∈ r, t ≤ r.getD (r.length - 1) 0)
    (h2 : 0 < r.getD (r.length - 1) 0) :
    ∀ s ∈ soc_from_time r, 0 ≤ s ∧ s ≤ 1 := by
  intro s hs
  simp only [soc_from_time, List.mem_map] at hs
  obtain ⟨t, ht, rfl⟩ := hs
  have hlen : 0 < r.length := List.length_pos.mpr (List.ne_nil_of_mem ht)
  rw [if_pos hlen]
  constructor
  · have hd : t / r.getD (r.length - 1) 0 ≤ 1 := (div_le_one h2).mpr (h1 t ht)
    linarith
  · have hd : 0 ≤ t / r.getD (r.length - 1) 0 := div_nonneg (h0 t ht) (le_of_lt h2)
    linarith

/-- Claim C4 (amended): every element of the derived SOC-from-time curve
lies in `[0, 1]` provided the resampled time channel is nonnegative,
bounded above by its final element, and its final element is positive.
(The source guarantees none of these for an arbitrary raw time channel:
see the counterexample, where a non-monotone time channel produces SOC
values outside `[0, 1]`; an empty time channel divides zero by zero.) -/
theorem c4_soc_range (time : List ℚ) (L : ℕ)
    (h0 : ∀ t ∈ anchor_resample time L, 0 ≤ t)
    (h1 : ∀ t ∈ anchor_resample time L,
        t ≤ (anchor_resample time L).getD ((anchor_resample time L).length - 1) 0)
    (h2 : 0 < (anchor_resample time L).getD ((anchor_resample time L).length - 1) 0) :
    ∀ s ∈ soc_from_time (anchor_resample time L), 0 ≤ s ∧ s ≤ 1 :=
  soc_from_time_mem (anchor_resample time L) h0 h1 h2

/-- Claim C4 counterexample: the accepted cycle `decreasingTimeCycle`
(tag "Discharge", voltage and current of length 5) has raw time channel
`[0, 4, 3, 2, 1]`; at `num_points = 5` its stored SOC curve contains `-3`,
which is not in `[0, 1]`. -/
theorem c4_soc_out_of_range_counterexample :
    acceptCycle decreasingTimeCycle = true
    ∧ (-3 : ℚ) ∈ (makeRow decreasingTimeCycle 5).soc_r
    ∧ ¬ ((0 : ℚ) ≤ -3) := by decide

/-- Claim C4 witness: a monotone time channel `[0, 1, 2, 3, 4]` at
`num_points = 5` satisfies the amended hypotheses and every derived SOC
value lies in `[0, 1]`. -/
theorem c4_soc_range_witness :
    (∀ t ∈ anchor_resample [ (0 : ℚ), 1, 2, 3, 4 ] 5, 0 ≤ t)
    ∧ (∀ t ∈ anchor_resample [ (0 : ℚ), 1, 2, 3, 4 ] 5,
        t ≤ (anchor_resample [ (0 : ℚ), 1, 2, 3, 4 ] 5).getD
          ((anchor_resample [ (0 : ℚ), 1, 2, 3, 4 ] 5).length - 1) 0)
    ∧ (0 < (anchor_resample [ (0 : ℚ), 1, 2, 3, 4 ] 5).getD
          ((anchor_resample [ (0 : ℚ), 1, 2, 3, 4 ] 5).length - 1) 0)
    ∧ ∀ s ∈ soc_from_time (anchor_resample [ (0 : ℚ), 1, 2, 3, 4 ] 5), 0 ≤ s ∧ s ≤ 1 :=
  ⟨by decide, by decide, by decide,
    c4_soc_range [ (0 : ℚ), 1, 2, 3, 4 ] 5 (by decide) (by decide) (by decide)⟩

/-! Loss-function helper lemma and claims C10, C5, C6. -/

lemma zip_sub_sq_sum_comm (a : List ℚ) : ∀ (b : List ℚ),
    ((a.zip b).map (fun p => (p.1 - p.2) ^ 2)).sum
      = ((b.zip a).map (fun p => (p.1 - p.2) ^ 2)).sum := by
  induction a with
  | nil =>
    intro b
    cases b <;> simp
  | cons x a ih =>
    intro b
    cases b with
    | nil => simp
    | cons y b =>
      simp only [List.zip_cons_cons, List.map_cons, List.sum_cons]
      rw [ih b]
      ring

/-- Claim C10: the physics-informed loss with `alpha = beta = 0` equals the
plain mean squared error on the same prediction and target, exactly. -/
theorem c10_physics_loss_alpha_beta_zero (y_true y_pred ecm_soc : List ℚ) :
    physics_informed_loss y_true y_pred ecm_soc 0 0 = mse_loss y_true y_pred := by
  have hlen : (y_pred.zip y_true).length = (y_true.zip y_pred).length := by
    simp [List.length_zip, Nat.min_comm]
  simp only [physics_informed_loss, mse_loss, zero_mul, add_zero]
  rw [zip_sub_sq_sum_comm y_pred y_true, hlen]

/-- Claim C5: at the failing input `trues = [1, 1]` (zero variance) the
R-squared denominator `sum((trues - mean(trues))^2)` is `0`, yet
`evaluate_model` still computes `1 - ss_res / 0` with no guard — here the
division is by the literal zero denominator (the source propagates
NaN/inf with only a numpy warning instead of signalling explicitly). -/
theorem c5_r2_zero_variance_unguarded :
    r2_denom [ (1 : ℚ), 1 ] = 0
    ∧ r2_score [ (0 : ℚ), 0 ] [ (1 : ℚ), 1 ] = 1 - 2 / 0 := by decide

/-- Claim C6: with per-epoch validation losses `[5, NaN, 3]` the training
loop of `train_model` does not abort: the loss history records all three
epochs and the epoch-3 checkpoint (loss `3 < 5`) is still persisted and
restored after the non-finite epoch, contradicting the required
abort-on-non-finite-loss behaviour. -/
theorem c6_nonfinite_loss_no_abort :
    train_model [ (LossVal.fin 5, (0 : ℕ)), (LossVal.nonfinite, 1), (LossVal.fin 3, 2) ]
      = ([ LossVal.fin 5, LossVal.nonfinite, LossVal.fin 3 ], some 2) := by decide

/-! Cycle-extraction characterization (claims C9 and C1). -/

lemma processBatteryGo_eq (L : ℕ) (cs : List RawCycle) : ∀ (res : List NormalizedCycle),
    res.length < MAX_CYCLES →
    processBatteryGo L cs res
      = res ++ ((cs.filter acceptCycle).map (fun c => makeRow c L)).take (MAX_CYCLES - res.length) := by
  induction cs with
  | nil =>
    intro res h
    simp [processBatteryGo]
  | cons c cs ih =>
    intro res h
    by_cases hc : acceptCycle c
    · simp only [processBatteryGo, hc, if_true, List.filter_cons_of_pos hc, List.map_cons]
      by_cases h2 : MAX_CYCLES ≤ (res ++ [makeRow c L]).length
      · rw [if_pos h2]
        have hres : MAX_CYCLES - res.length = 1 := by
          simp only [List.length_append, List.length_singleton] at h2
          omega
        rw [hres]
        simp [List.take_succ_cons]
      · rw [if_neg h2]
        have h2' : (res ++ [makeRow c L]).length < MAX_CYCLES := by omega
        rw [ih _ h2']
        have hm : MAX_CYCLES - res.length = (MAX_CYCLES - (res ++ [makeRow c L]).length) + 1 := by
          simp only [List.length_append, List.length_singleton] at h2 ⊢
          omega
        rw [hm, List.take_succ_cons]
        simp
    · simp only [processBatteryGo, hc, if_false, List.filter_cons_of_neg hc]
      exact ih res h

lemma process_battery_eq (cycles : List RawCycle) (L : ℕ) :
    process_battery cycles L
      = ((cycles.filter acceptCycle).map (fun c => makeRow c L)).take MAX_CYCLES := by
  have h := processBatteryGo_eq L cycles [] (by norm_num [MAX_CYCLES])
  simpa using h

lemma processBatteryGo_cons_pos {c : RawCycle} (h : acceptCycle c = true) (L : ℕ)
    (cs : List RawCycle) (res : List NormalizedCycle) :
    processBatteryGo L (c :: cs) res
      = (if MAX_CYCLES ≤ (res ++ [makeRow c L]).length then res ++ [makeRow c L]
         else processBatteryGo L cs (res ++ [makeRow c L])) := by
  simp [processBatteryGo, h]

lemma processBatteryGo_cons_neg {c : RawCycle} (h : acceptCycle c = false) (L : ℕ)
    (cs : List RawCycle) (res : List NormalizedCycle) :
    processBatteryGo L (c :: cs) res = processBatteryGo L cs res := by
  simp [processBatteryGo, h]

lemma npSqueezeLen?_eq {a : List ℚ} (h : a.length ≠ 1) : npSqueezeLen? a = some a.length := by
  simp [npSqueezeLen?, h]

lemma processBatteryGoE_eq_of_safe (L : ℕ) (cs : List RawCycle) : ∀ (res : List NormalizedCycle),
    (∀ c ∈ cs, strLower (c.type?.getD ("")) = "discharge" →
      c.voltage.length ≠ 1 ∧ c.current.length ≠ 1 ∧ c.temperature.length ≠ 1 ∧ c.time.length ≠ 1) →
    processBatteryGoE L cs res = some (processBatteryGo L cs res) := by
  induction cs with
  | nil =>
    intro res _
    rfl
  | cons c cs ih =>
    intro res hsafe
    have hcs : ∀ c' ∈ cs, strLower (c'.type?.getD ("")) = "discharge" →
        c'.voltage.length ≠ 1 ∧ c'.current.length ≠ 1
          ∧ c'.temperature.length ≠ 1 ∧ c'.time.length ≠ 1 :=
      fun c' hc' => hsafe c' (List.mem_cons_of_mem _ hc')
    by_cases htag : strLower (c.type?.getD ("")) = "discharge"
    · obtain ⟨hv, hcur, htemp, htime⟩ := hsafe c (List.mem_cons_self _ _) htag
      have htagb : (strLower (c.type?.getD ("")) == "discharge") = true := by
        simp [beq_iff_eq, htag]
      by_cases h5v : 5 ≤ c.voltage.length
      · by_cases h5c : 5 ≤ c.current.length
        · have hacc : acceptCycle c = true := by
            simp [acceptCycle, htagb, h5v, h5c]
          rw [processBatteryGo_cons_pos hacc]
          simp only [processBatteryGoE, htagb, if_true, npSqueezeLen?_eq hv, npSqueezeLen?_eq hcur]
          rw [if_neg (by omega : ¬ c.voltage.length < 5), if_neg (by omega : ¬ c.current.length < 5),
            if_neg htemp, if_neg htime]
          by_cases hcap : MAX_CYCLES ≤ (res ++ [makeRow c L]).length
          · rw [if_pos hcap, if_pos hcap]
          · rw [if_neg hcap, if_neg hcap]
            exact ih _ hcs
        · have hacc : acceptCycle c = false := by
            simp [acceptCycle, h5c]
          rw [processBatteryGo_cons_neg hacc]
          simp only [processBatteryGoE, htagb, if_true, npSqueezeLen?_eq hv, npSqueezeLen?_eq hcur]
          rw [if_neg (by omega : ¬ c.voltage.length < 5), if_pos (by omega : c.current.length < 5)]
          exact ih _ hcs
      · have hacc : acceptCycle c = false := by
          simp [acceptCycle, h5v]
        rw [processBatteryGo_cons_neg hacc]
        simp only [processBatteryGoE, htagb, if_true, npSqueezeLen?_eq hv]
        rw [if_pos (by omega : c.voltage.length < 5)]
        exact ih _ hcs
    · have htagb : (strLower (c.type?.getD ("")) == "discharge") = false := by
        rw [beq_eq_false_iff_ne]
        exact htag
      have hacc : acceptCycle c = false := by
        simp [acceptCycle, htagb]
      rw [processBatteryGo_cons_neg hacc]
      simp only [processBatteryGoE, htagb]
      rw [if_neg (by simp)]
      exact ih _ hcs

/-- Claim C9 (amended): provided no scanned discharge-tagged cycle carries a
length-1 channel — the source's `np.squeeze` turns such a channel into a
0-d array on which `len()` raises an uncaught TypeError, so extraction
crashes instead of skipping or retaining the entry (see the counterexample)
— extraction completes and the retained rows are exactly the cycles whose
lowercased type tag is "discharge" and whose voltage and current channels
both have length at least 5, in order, truncated to the first `MAX_CYCLES`
accepted cycles; the other entries (no tag, different tag, short channel)
are skipped silently. -/
theorem c9_retention_characterization (cycles : List RawCycle) (L : ℕ)
    (hsafe : ∀ c ∈ cycles, strLower (c.type?.getD ("")) = "discharge" →
      c.voltage.length ≠ 1 ∧ c.current.length ≠ 1
        ∧ c.temperature.length ≠ 1 ∧ c.time.length ≠ 1) :
    process_batteryE cycles L
      = some (((cycles.filter acceptCycle).map (fun c => makeRow c L)).take MAX_CYCLES)
    ∧ ∀ c : RawCycle, acceptCycle c = true
        ↔ (strLower (c.type?.getD ("")) = "discharge"
            ∧ 5 ≤ c.voltage.length ∧ 5 ≤ c.current.length) := by
  constructor
  · rw [process_batteryE, processBatteryGoE_eq_of_safe L cycles [] hsafe]
    rw [show processBatteryGo L cycles [] = process_battery cycles L from rfl, process_battery_eq]
  · intro c
    simp [acceptCycle, Bool.and_eq_true, beq_iff_eq, and_assoc]

/-- Claim C9 counterexample, two failure modes of the claimed iff:
(a) the cap — 1001 identical qualifying discharge cycles all satisfy the
retention predicate, yet extraction keeps only the first 1000 rows; and
(b) the crash — a discharge-tagged cycle whose voltage channel has length
exactly 1 makes `len()` raise on the 0-d `np.squeeze` result, so
extraction crashes (`none`): that entry is neither skipped silently nor is
the following qualifying cycle retained. -/
theorem c9_cap_and_crash_counterexample :
    acceptCycle sampleCycle = true
    ∧ (List.replicate 1001 sampleCycle).filter acceptCycle = List.replicate 1001 sampleCycle
    ∧ process_batteryE (List.replicate 1001 sampleCycle) 1
        = some ((List.replicate 1001 (makeRow sampleCycle 1)).take MAX_CYCLES)
    ∧ ((List.replicate 1001 (makeRow sampleCycle 1)).take MAX_CYCLES).length = 1000
    ∧ (List.replicate 1001 sampleCycle).length = 1001
    ∧ process_batteryE [ singletonVoltageCycle, sampleCycle ] 1 = none := by
  have hacc : acceptCycle sampleCycle = true := by decide
  have hsafe : ∀ c ∈ List.replicate 1001 sampleCycle,
      strLower (c.type?.getD ("")) = "discharge" →
      c.voltage.length ≠ 1 ∧ c.current.length ≠ 1
        ∧ c.temperature.length ≠ 1 ∧ c.time.length ≠ 1 := by
    intro c hc _
    rcases List.eq_of_mem_replicate hc with rfl
    exact ⟨by decide, by decide, by decide, by decide⟩
  refine ⟨hacc, List.filter_replicate_of_pos hacc, ?_, ?_, by rw [List.length_replicate], by decide⟩
  · rw [process_batteryE, processBatteryGoE_eq_of_safe 1 _ [] hsafe]
    rw [show processBatteryGo 1 (List.replicate 1001 sampleCycle) []
        = process_battery (List.replicate 1001 sampleCycle) 1 from rfl,
      process_battery_eq, List.filter_replicate_of_pos hacc, List.map_replicate]
  · simp only [List.length_take, List.length_replicate, MAX_CYCLES]
    omega

/-- Claim C9 witness: the spec's test scenario — cycles tagged "charge",
"Discharge", "impedance" plus a short discharge cycle, none with a
singleton channel — retains exactly the qualifying "Discharge" entry. -/
theorem c9_retention_characterization_witness :
    (∀ c ∈ [ chargeCycle, sampleCycle, impedanceCycle, shortDischargeCycle ],
        strLower (c.type?.getD ("")) = "discharge" →
        c.voltage.length ≠ 1 ∧ c.current.length ≠ 1
          ∧ c.temperature.length ≠ 1 ∧ c.time.length ≠ 1)
    ∧ (process_batteryE [ chargeCycle, sampleCycle, impedanceCycle, shortDischargeCycle ] 1
        = some (((([ chargeCycle, sampleCycle, impedanceCycle, shortDischargeCycle ]).filter
            acceptCycle).map (fun c => makeRow c 1)).take MAX_CYCLES)
      ∧ ∀ c : RawCycle, acceptCycle c = true
          ↔ (strLower (c.type?.getD ("")) = "discharge"
              ∧ 5 ≤ c.voltage.length ∧ 5 ≤ c.current.length)) :=
  ⟨by decide,
    c9_retention_characterization [ chargeCycle, sampleCycle, impedanceCycle, shortDischargeCycle ] 1
      (by decide)⟩

lemma process_battery_length_le (cycles : List RawCycle) (L : ℕ) :
    (process_battery cycles L).length ≤ MAX_CYCLES := by
  rw [process_battery_eq]
  exact List.length_take_le _ _

lemma preprocessGo_length_le (L mc : ℕ) (bs : List Battery) : ∀ (acc : List NormalizedCycle),
    acc.length ≤ mc - 1 → (preprocessGo L mc bs acc).length ≤ (mc - 1) + MAX_CYCLES := by
  induction bs with
  | nil =>
    intro acc h
    simp only [preprocessGo]
    omega
  | cons b bs ih =>
    intro acc h
    by_cases hu : b.usable
    · simp only [preprocessGo, hu, if_true]
      by_cases h2 : mc ≤ (acc ++ process_battery b.cycles L).length
      · rw [if_pos h2]
        have hpb := process_battery_length_le b.cycles L
        simp only [List.length_append]
        omega
      · rw [if_neg h2]
        apply ih
        simp only [List.length_append] at h2 ⊢
        omega
    · simp only [preprocessGo, hu, if_false]
      exact ih acc h

/-- Claim C1 (amended): the total number of retained cycles can exceed the
configured cap `max_cycles` (the cap is only checked after a whole battery's
rows have been appended — see the counterexample), but it is bounded: no new
battery is started once the total reaches `max_cycles` and each battery
contributes at most `MAX_CYCLES` rows, so the total never exceeds
`(max_cycles - 1) + MAX_CYCLES`; extraction stops without error once the cap
is reached and already-accepted cycles are kept. -/
theorem c1_cycle_cap_bound (batteries : List Battery) (L mc : ℕ) (hmc : 1 ≤ mc) :
    (preprocess_and_save_csv batteries L mc).length ≤ (mc - 1) + MAX_CYCLES :=
  preprocessGo_length_le L mc batteries [] (by simp)

/-- Claim C1 witness: one usable battery with two accepted cycles at cap 1
— the bound `(1 - 1) + MAX_CYCLES` holds. -/
theorem c1_cycle_cap_bound_witness :
    1 ≤ 1
    ∧ (preprocess_and_save_csv [ { usable := true, cycles := List.replicate 2 sampleCycle } ] 1 1).length
        ≤ (1 - 1) + MAX_CYCLES :=
  ⟨le_refl 1,
    c1_cycle_cap_bound [ { usable := true, cycles := List.replicate 2 sampleCycle } ] 1 1 (le_refl 1)⟩

/-- Claim C1 counterexample: with `max_cycles = 1` and a single usable
battery holding two accepted cycles, both cycles are written out — the
retained-cycle total `2` exceeds the configured cap `1`. -/
theorem c1_cap_exceeded_counterexample :
    (preprocess_and_save_csv [ { usable := true, cycles := List.replicate 2 sampleCycle } ] 1 1).length = 2
    ∧ ¬ ((preprocess_and_save_csv [ { usable := true, cycles := List.replicate 2 sampleCycle } ] 1 1).length ≤ 1) := by
  have h : (preprocess_and_save_csv [ { usable := true, cycles := List.replicate 2 sampleCycle } ] 1 1).length = 2 := by
    decide
  rw [h]
  omega

/-! Trainer checkpoint-retention lemmas (claim C3). -/

lemma trainFold_spec {α : Type} (l : List (ℚ × α)) : ∀ (b : ℚ) (a : α),
    ((l.map (fun e => (LossVal.fin e.1, e.2))).foldl trainStep (some b, some a)
        = (some b, some a)
      ∧ ∀ j : Fin l.length, b ≤ (l.get j).1)
    ∨ ∃ i : Fin l.length,
        (l.map (fun e => (LossVal.fin e.1, e.2))).foldl trainStep (some b, some a)
          = (some (l.get i).1, some (l.get i).2)
        ∧ (l.get i).1 < b
        ∧ ∀ j : Fin l.length, (l.get i).1 ≤ (l.get j).1 := by
  induction l with
  | nil =>
    intro b a
    left
    exact ⟨rfl, fun j => j.elim0⟩
  | cons e l ih =>
    intro b a
    have hstep : trainStep ((some b : Option ℚ), (some a : Option α)) (LossVal.fin e.1, e.2)
        = if e.1 < b then (some e.1, some e.2) else (some b, some a) := by
      simp [trainStep, valLtQ]
    simp only [List.map_cons, List.foldl_cons, hstep]
    by_cases h : e.1 < b
    · rw [if_pos h]
      rcases ih e.1 e.2 with ⟨heq, hall⟩ | ⟨⟨iv, hi⟩, heq, hlt, hall⟩
      · right
        refine ⟨⟨0, by simp⟩, heq, h, ?_⟩
        rintro ⟨jv, hj⟩
        cases jv with
        | zero => exact le_refl _
        | succ jv =>
          rw [List.get_cons_succ]
          exact hall ⟨jv, by simpa using hj⟩
      · right
        refine ⟨⟨iv + 1, by simpa using hi⟩, ?_, lt_trans hlt h, ?_⟩
        · rw [List.get_cons_succ]
          exact heq
        · rintro ⟨jv, hj⟩
          cases jv with
          | zero =>
            rw [List.get_cons_succ]
            exact le_of_lt hlt
          | succ jv =>
            rw [List.get_cons_succ, List.get_cons_succ]
            exact hall ⟨jv, by simpa using hj⟩
    · rw [if_neg h]
      rcases ih b a with ⟨heq, hall⟩ | ⟨⟨iv, hi⟩, heq, hlt, hall⟩
      · left
        refine ⟨heq, ?_⟩
        rintro ⟨jv, hj⟩
        cases jv with
        | zero => exact le_of_not_lt h
        | succ jv =>
          rw [List.get_cons_succ]
          exact hall ⟨jv, by simpa using hj⟩
      · right
        refine ⟨⟨iv + 1, by simpa using hi⟩, ?_, hlt, ?_⟩
        · rw [List.get_cons_succ]
          exact heq
        · rintro ⟨jv, hj⟩
          cases jv with
          | zero =>
            rw [List.get_cons_succ]
            exact le_trans (le_of_lt hlt) (le_of_not_lt h)
          | succ jv =>
            rw [List.get_cons_succ, List.get_cons_succ]
            exact hall ⟨jv, by simpa using hj⟩

/-- Claim C3: when all per-epoch mean validation losses are finite and one
epoch has the strictly smallest loss, the state restored by `train_model`
after the final epoch is exactly that epoch's parameter snapshot — not the
last epoch's parameters. -/
theorem c3_restores_best_epoch {α : Type} (l : List (ℚ × α)) (i : Fin l.length)
    (hmin : ∀ j : Fin l.length, j ≠ i → (l.get i).1 < (l.get j).1) :
    (train_model (l.map (fun e => (LossVal.fin e.1, e.2)))).2 = some (l.get i).2 := by
  cases l with
  | nil => exact i.elim0
  | cons e l =>
    have hstep : trainStep ((none : Option ℚ), (none : Option α)) (LossVal.fin e.1, e.2)
        = (some e.1, some e.2) := by
      simp [trainStep, valLtQ]
    simp only [train_model, List.map_cons, List.foldl_cons, hstep]
    rcases trainFold_spec l e.1 e.2 with ⟨heq, hall⟩ | ⟨⟨iv', hi'⟩, heq, hlt, hall⟩
    · rw [heq]
      rcases i with ⟨iv, hi⟩
      cases iv with
      | zero => rfl
      | succ iv =>
        exfalso
        have hj0 : ((⟨0, by simp⟩ : Fin (e :: l).length) ≠ ⟨iv + 1, hi⟩) :=
          Fin.ne_of_val_ne (show (0 : ℕ) ≠ iv + 1 by omega)
        have h1 := hmin ⟨0, by simp⟩ hj0
        have h2 := hall ⟨iv, by simpa using hi⟩
        rw [show ((e :: l).get ⟨0, by simp⟩) = e from rfl] at h1
        rw [show (l.get ⟨iv, by simpa using hi⟩) = ((e :: l).get ⟨iv + 1, hi⟩) from rfl] at h2
        exact absurd (lt_of_le_of_lt h2 h1) (lt_irrefl _)
    · rw [heq]
      rcases i with ⟨iv, hi⟩
      cases iv with
      | zero =>
        exfalso
        have hj : ((⟨iv' + 1, by simpa using hi'⟩ : Fin (e :: l).length) ≠ ⟨0, hi⟩) :=
          Fin.ne_of_val_ne (show iv' + 1 ≠ 0 by omega)
        have h1 := hmin ⟨iv' + 1, by simpa using hi'⟩ hj
        rw [show ((e :: l).get ⟨0, hi⟩) = e from rfl,
          show ((e :: l).get ⟨iv' + 1, by simpa using hi'⟩) = (l.get ⟨iv', hi'⟩) from rfl] at h1
        exact absurd (lt_trans hlt h1) (lt_irrefl _)
      | succ iv =>
        by_cases hiv : iv = iv'
        · subst hiv
          rfl
        · exfalso
          have hj : ((⟨iv' + 1, by simpa using hi'⟩ : Fin (e :: l).length) ≠ ⟨iv + 1, hi⟩) :=
            Fin.ne_of_val_ne (show iv' + 1 ≠ iv + 1 by omega)
          have h1 := hmin ⟨iv' + 1, by simpa using hi'⟩ hj
          have h2 := hall ⟨iv, by simpa using hi⟩
          rw [show ((e :: l).get ⟨iv' + 1, by simpa using hi'⟩) = (l.get ⟨iv', hi'⟩) from rfl] at h1
          rw [show (l.get ⟨iv, by simpa using hi⟩) = ((e :: l).get ⟨iv + 1, hi⟩) from rfl] at h2
          exact absurd (lt_of_le_of_lt h2 h1) (lt_irrefl _)

/-- Claim C3 witness: with per-epoch validation losses `[5, 3, 4, 2, 6]`
(parameter snapshots tagged 0..4), the restored parameters are those of the
epoch with loss 2 (tag 3), not the final epoch's. -/
theorem c3_restores_best_epoch_witness :
    (∀ j : Fin ([((5 : ℚ), (0 : ℕ)), (3, 1), (4, 2), (2, 3), (6, 4)]).length,
        j ≠ ⟨3, by decide⟩ →
        (([((5 : ℚ), (0 : ℕ)), (3, 1), (4, 2), (2, 3), (6, 4)]).get ⟨3, by decide⟩).1
          < (([((5 : ℚ), (0 : ℕ)), (3, 1), (4, 2), (2, 3), (6, 4)]).get j).1)
    ∧ (train_model (([((5 : ℚ), (0 : ℕ)), (3, 1), (4, 2), (2, 3), (6, 4)]).map
        (fun e => (LossVal.fin e.1, e.2)))).2
      = some (([((5 : ℚ), (0 : ℕ)), (3, 1), (4, 2), (2, 3), (6, 4)]).get ⟨3, by decide⟩).2 :=
  ⟨by decide, c3_restores_best_epoch _ ⟨3, by decide⟩ (by decide)⟩

/-! Checkpoint-key lemmas (claim C2). -/

lemma cons_tail_eq {a : Char} {as bs : List Char} (h : a :: as = a :: bs) : as = bs := by
  injection h

/-- Claim C2 (amended): the checkpoint key built by `train_model` depends
only on the loss kind and the architecture's model name — the composition
kind (`ecm_in`) is not part of the key, so two runs differing only in
composition kind collide (see the counterexample).  For the two loss kinds
that occur in the source ("mse", "physics"), keys of two runs are equal
precisely when both the loss kind and the model name agree. -/
theorem c2_checkpoint_key_inj (cfg1 cfg2 : RunConfig)
    (h1 : cfg1.loss_type = "mse" ∨ cfg1.loss_type = "physics")
    (h2 : cfg2.loss_type = "mse" ∨ cfg2.loss_type = "physics") :
    checkpointKey cfg1 = checkpointKey cfg2
      ↔ (cfg1.loss_type = cfg2.loss_type ∧ cfg1.model_name = cfg2.model_name) := by
  have ebest : ("best_").data = ['b', 'e', 's', 't', '_'] := rfl
  have emse : ("mse").data = ['m', 's', 'e'] := rfl
  have ephys : ("physics").data = ['p', 'h', 'y', 's', 'i', 'c', 's'] := rfl
  have esep : ("_").data = ['_'] := rfl
  constructor
  · intro h
    have hd := congrArg String.data h
    simp only [checkpointKey, String.data_append, List.append_assoc] at hd
    rcases h1 with h1 | h1 <;> rcases h2 with h2 | h2 <;>
      rw [h1, h2] at hd <;>
      simp only [ebest, emse, ephys, esep, List.cons_append, List.nil_append] at hd
    · refine ⟨by rw [h1, h2], ?_⟩
      replace hd := cons_tail_eq (cons_tail_eq (cons_tail_eq (cons_tail_eq (cons_tail_eq
        (cons_tail_eq (cons_tail_eq (cons_tail_eq (cons_tail_eq hd))))))))
      have hlen := congrArg List.length hd
      simp only [List.length_append] at hlen
      exact String.ext (List.append_inj hd (by omega)).1
    · exfalso
      replace hd := cons_tail_eq (cons_tail_eq (cons_tail_eq (cons_tail_eq (cons_tail_eq hd))))
      injection hd with hc _
      exact absurd hc (by decide)
    · exfalso
      replace hd := cons_tail_eq (cons_tail_eq (cons_tail_eq (cons_tail_eq (cons_tail_eq hd))))
      injection hd with hc _
      exact absurd hc (by decide)
    · refine ⟨by rw [h1, h2], ?_⟩
      replace hd := cons_tail_eq (cons_tail_eq (cons_tail_eq (cons_tail_eq (cons_tail_eq
        (cons_tail_eq (cons_tail_eq (cons_tail_eq (cons_tail_eq (cons_tail_eq
        (cons_tail_eq (cons_tail_eq (cons_tail_eq hd))))))))))))
      have hlen := congrArg List.length hd
      simp only [List.length_append] at hlen
      exact String.ext (List.append_inj hd (by omega)).1
  · rintro ⟨ha, hb⟩
    simp only [checkpointKey, ha, hb]

/-- Claim C2 counterexample: two run configurations that differ in the
composition kind (`ecm_in`), and in nothing else, receive the same
checkpoint storage key — the persisted checkpoints collide. -/
theorem c2_key_collision_counterexample :
    ({ loss_type := "mse", ecm_in := true, model_name := "m" } : RunConfig)
      ≠ ({ loss_type := "mse", ecm_in := false, model_name := "m" } : RunConfig)
    ∧ checkpointKey { loss_type := "mse", ecm_in := true, model_name := "m" }
      = checkpointKey { loss_type := "mse", ecm_in := false, model_name := "m" } := by
  refine ⟨by simp, rfl⟩

/-- Claim C2 witness: for the configurations ("mse", residual, "m") and
("physics", absolute, "m") the amended key characterization applies: the
keys are equal exactly when the loss kinds and model names agree. -/
theorem c2_checkpoint_key_inj_witness :
    (("mse" : String) = "mse" ∨ ("mse" : String) = "physics")
    ∧ (("physics" : String) = "mse" ∨ ("physics" : String) = "physics")
    ∧ (checkpointKey { loss_type := "mse", ecm_in := true, model_name := "m" }
        = checkpointKey { loss_type := "physics", ecm_in := false, model_name := "m" }
      ↔ (("mse" : String) = "physics" ∧ ("m" : String) = "m")) :=
  ⟨Or.inl rfl, Or.inr rfl,
    c2_checkpoint_key_inj
      { loss_type := "mse", ecm_in := true, model_name := "m" }
      { loss_type := "physics", ecm_in := false, model_name := "m" }
      (Or.inl rfl) (Or.inr rfl)⟩

end LithiumBattery
